import Mathlib

/-!
# MiniChess (5×5 chess variant) — verification of the rule engine and search

Shallow embedding of `src/MonarchsChessCode.py` (class `MiniChess`).

Modelling conventions:
* A board cell is the Python string `'.'` or a two-character string
  `color ++ type` (e.g. `'wK'`, `'bp'`).  We model a cell as `Square`:
  either `empty` or `piece c t` with the two characters kept as `Char`,
  so that states with unexpected colours or piece types remain
  representable, exactly as arbitrary strings would be in Python.
* `game_state` is the dict `{"board": ..., "turn": ...}`.  The `turn`
  field only ever holds `'white'` or `'black'` (it is initialised to
  `'white'` and flipped between the two by `make_move`), so it is
  modelled by the two-element type `Color`.
* Coordinates are Python ints, modelled as `Int`.  Board reads/writes
  use `getCell`/`setCell`, which return a default (resp. do nothing)
  out of range; every in-program access is guarded by the bounds checks
  of `validate_move`, so this choice is observationally irrelevant for
  validated moves (Python would wrap or raise on stray indices).
* The mutable instance attributes that survive across moves
  (`half_moves_since_capture`, `win_flag`) are modelled by the
  structure `Inst`, threaded explicitly through `make_move`.
  `suppress_output` only silences printing and is dropped.
* The error strings returned by `validate_move` form a fixed finite
  set; they are modelled by the enumeration `Reason`, one constructor
  per distinct message of the source (listed at the declaration).
-/

namespace MiniChess

/-- Side to move: the `"turn"` field of the game-state dict
(`'white'` or `'black'`). -/
inductive Color where
  | white
  | black
deriving DecidableEq, Repr

/-- Python `"black" if game_state["turn"] == "white" else "white"`. -/
def Color.flip : Color → Color
  | .white => .black
  | .black => .white

/-- A board cell: `'.'` or a two-character piece string, kept as the
pair of its characters (`piece[0]` = colour char, `piece[1]` = type char). -/
inductive Square where
  | empty
  | piece (color : Char) (ptype : Char)
deriving DecidableEq, Repr

/-- Python `piece[0]` (colour character); `'.'` is only consulted behind
non-empty guards in the source, the default is arbitrary. -/
def Square.colorChar : Square → Char
  | .empty => '.'
  | .piece c _ => c

/-- Python `piece[1]` (type character); same remark as `Square.colorChar`. -/
def Square.typeChar : Square → Char
  | .empty => '.'
  | .piece _ t => t

/-- The 5×5 board: a list of rows of cells. -/
abbrev Board := List (List Square)

/-- The game-state dict: board plus side to move. -/
structure GameState where
  board : Board
  turn : Color
deriving DecidableEq, Repr

/-- A move `((start_row, start_col), (end_row, end_col))`. -/
abbrev Move := (Int × Int) × (Int × Int)

/-- Read of `board[r][c]` (total: default `empty` out of range; only consulted
in range by the embedded code paths). -/
def getCell (b : Board) (r c : Int) : Square :=
  (b.getD r.toNat []).getD c.toNat Square.empty

/-- Write of `board[r][c] = sq` (no-op out of range; only used in range). -/
def setCell (b : Board) (r c : Int) (sq : Square) : Board :=
  b.set r.toNat ((b.getD r.toNat []).set c.toNat sq)

/-- Constant `BOARD_SIZE = 5`. -/
def BOARD_SIZE : Int := 5

/-- Python `is_within_bounds(row, col)`. -/
def is_within_bounds (row col : Int) : Bool :=
  0 ≤ row ∧ row < BOARD_SIZE ∧ 0 ≤ col ∧ col < BOARD_SIZE

/-- Walk from `cur` towards `tgt` in direction `step`, requiring every
square strictly before `tgt` to be empty (the `while` loops of
`is_valid_linear_move` / `is_valid_diagonal_move`).  `fuel` bounds the
walk; the callers pass enough fuel to reach `tgt` whenever the
direction is aligned, which the callers' guards guarantee. -/
def pathClear (b : Board) : Nat → Int × Int → Int × Int → Int × Int → Bool
  | 0, _, _, _ => true
  | fuel + 1, cur, tgt, step =>
    if cur = tgt then true
    else if getCell b cur.1 cur.2 ≠ Square.empty then false
    else pathClear b fuel (cur.1 + step.1, cur.2 + step.2) tgt step

/-- Python `is_valid_linear_move(board, start, end)`. -/
def is_valid_linear_move (b : Board) (s e : Int × Int) : Bool :=
  if s.1 ≠ e.1 ∧ s.2 ≠ e.2 then false
  else
    let row_step : Int := if s.1 = e.1 then 0 else if e.1 > s.1 then 1 else -1
    let col_step : Int := if s.2 = e.2 then 0 else if e.2 > s.2 then 1 else -1
    pathClear b ((e.1 - s.1).natAbs + (e.2 - s.2).natAbs)
      (s.1 + row_step, s.2 + col_step) e (row_step, col_step)

/-- Python `is_valid_diagonal_move(board, start, end)`. -/
def is_valid_diagonal_move (b : Board) (s e : Int × Int) : Bool :=
  if (s.1 - e.1).natAbs ≠ (s.2 - e.2).natAbs then false
  else
    let row_step : Int := if e.1 > s.1 then 1 else -1
    let col_step : Int := if e.2 > s.2 then 1 else -1
    pathClear b ((e.1 - s.1).natAbs + (e.2 - s.2).natAbs)
      (s.1 + row_step, s.2 + col_step) e (row_step, col_step)

/-- The fixed set of messages returned by `validate_move`, one
constructor per source string:
* `ok` — `""` (paired with `True`);
* `startOutOfBounds` — `"Starting coordinate out of bounds."`;
* `destOutOfBounds` — `"Destination coordinate out of bounds."`;
* `emptySource` — `"No piece at the starting square."`;
* `notWhitePiece` — `"It is white's turn, but the selected piece is not white."`;
* `notBlackPiece` — `"It is black's turn, but the selected piece is not black."`;
* `ownPieceAtDest` — `"Cannot move to a square occupied by your own piece."`;
* `badKing` — `"King can only move one square in any direction."`;
* `badQueen` — `"Queen must move in a straight line or diagonally with no obstacles."`;
* `badBishop` — `"Bishop can only move diagonally with no obstacles."`;
* `badKnight` — `"Knight moves in an L-shape (2 squares in one direction and 1 in the other)."`;
* `badPawnForward` — `"Pawn can only move forward one square into an empty space."`;
* `badPawnCapture` — `"Pawn can only capture diagonally one square."`;
* `badPawnMove` — `"Invalid pawn move."`;
* `unknownPiece` — `"Unknown piece type encountered."`. -/
inductive Reason where
  | ok
  | startOutOfBounds
  | destOutOfBounds
  | emptySource
  | notWhitePiece
  | notBlackPiece
  | ownPieceAtDest
  | badKing
  | badQueen
  | badBishop
  | badKnight
  | badPawnForward
  | badPawnCapture
  | badPawnMove
  | unknownPiece
deriving DecidableEq, Repr

/-- The piece-specific branch of `validate_move` (the `if piece_type == ...`
chain, lines 117–156 of the source), factored out.  `pc`/`pt` are the
colour and type characters of the moving piece. -/
def pieceRule (b : Board) (turn : Color) (pc pt : Char)
    (start e : Int × Int) : Bool × Reason :=
  let (start_row, start_col) := start
  let (end_row, end_col) := e
  if pt = 'K' then
    if (start_row - end_row).natAbs ≤ 1 ∧ (start_col - end_col).natAbs ≤ 1 then
      (true, .ok)
    else (false, .badKing)
  else if pt = 'Q' then
    if is_valid_linear_move b start e ∨ is_valid_diagonal_move b start e then
      (true, .ok)
    else (false, .badQueen)
  else if pt = 'B' then
    if is_valid_diagonal_move b start e then (true, .ok)
    else (false, .badBishop)
  else if pt = 'N' then
    if ((start_row - end_row).natAbs, (start_col - end_col).natAbs) = (2, 1) ∨
        ((start_row - end_row).natAbs, (start_col - end_col).natAbs) = (1, 2) then
      (true, .ok)
    else (false, .badKnight)
  else if pt = 'p' then
    let direction : Int := if turn = .white then -1 else 1
    if start_col = end_col then
      if end_row = start_row + direction ∧ getCell b end_row end_col = .empty then
        (true, .ok)
      else (false, .badPawnForward)
    else if (start_col - end_col).natAbs = 1 ∧ end_row = start_row + direction then
      if getCell b end_row end_col ≠ .empty ∧
          (getCell b end_row end_col).colorChar ≠ pc then
        (true, .ok)
      else (false, .badPawnCapture)
    else (false, .badPawnMove)
  else (false, .unknownPiece)

/-- Python `validate_move(game_state, move)`.  (The `move is None` branch of the
source belongs to the string-parsing wrapper and has no counterpart
here: a `Move` is always present.) -/
def validate_move (st : GameState) (m : Move) : Bool × Reason :=
  let (start, e) := m
  let (start_row, start_col) := start
  let (end_row, end_col) := e
  let b := st.board
  if ¬ is_within_bounds start_row start_col then (false, .startOutOfBounds)
  else if ¬ is_within_bounds end_row end_col then (false, .destOutOfBounds)
  else
    match getCell b start_row start_col with
    | .empty => (false, .emptySource)
    | .piece pc pt =>
      if st.turn = .white ∧ pc ≠ 'w' then (false, .notWhitePiece)
      else if st.turn = .black ∧ pc ≠ 'b' then (false, .notBlackPiece)
      else
        let target := getCell b end_row end_col
        if target ≠ .empty ∧ target.colorChar = pc then (false, .ownPieceAtDest)
        else pieceRule b st.turn pc pt start e

/-- Does the cell hold a piece of the side to move?  This is the guard
`piece != '.' and ((current_turn == 'white' and piece[0] == 'w') or
(current_turn == 'black' and piece[0] == 'b'))` of `get_all_valid_moves`. -/
def ownedByTurn (turn : Color) (sq : Square) : Bool :=
  sq ≠ Square.empty ∧
    ((turn = .white ∧ sq.colorChar = 'w') ∨ (turn = .black ∧ sq.colorChar = 'b'))

/-- Python `get_all_valid_moves(game_state)`: the four nested `range(BOARD_SIZE)`
loops, appending `((i, j), (x, y))` whenever `validate_move` accepts it. -/
def get_all_valid_moves (st : GameState) : List Move :=
  (List.range 5).flatMap fun i =>
    (List.range 5).flatMap fun j =>
      if ownedByTurn st.turn (getCell st.board (i : Int) (j : Int)) then
        (List.range 5).flatMap fun x =>
          (List.range 5).flatMap fun y =>
            let m : Move := (((i : Int), (j : Int)), ((x : Int), (y : Int)))
            if (validate_move st m).1 then [m] else []
      else []

/-- Is the cell a King (`piece != '.' and piece[1] == 'K'`)? -/
def isKing (sq : Square) : Bool :=
  sq ≠ Square.empty ∧ sq.typeChar = 'K'

/-- Python `is_game_over(game_state)`: fewer than two Kings on the board. -/
def is_game_over (st : GameState) : Bool :=
  (st.board.foldl (fun kings row =>
    row.foldl (fun kings sq => if isKing sq then kings + 1 else kings) kings) 0) < 2

/-- The weight table selected by `heuristic_choice` (`weights.get(p_type, 0)`):
`e0`/`e1`/`e2` and the defensive default all weight p=1, B=3, N=3, Q=9 and
differ only in the King weight (999 / 900 / 1200 / 999). -/
def pieceWeight (heuristic : String) (pt : Char) : Int :=
  let kingW : Int :=
    if heuristic = "e0" then 999
    else if heuristic = "e1" then 900
    else if heuristic = "e2" then 1200
    else 999
  if pt = 'p' then 1
  else if pt = 'B' then 3
  else if pt = 'N' then 3
  else if pt = 'Q' then 9
  else if pt = 'K' then kingW
  else 0

/-- Python `evaluate_board(game_state)`: `white_value - black_value`, where a
piece counts for white exactly when its colour character is `'w'`
(the source's `if color == 'w': ... else: ...`). -/
def evaluate_board (heuristic : String) (st : GameState) : Int :=
  let (w, b) := st.board.foldl (fun acc row =>
    row.foldl (fun (acc : Int × Int) sq =>
      match sq with
      | .empty => acc
      | .piece c t =>
        if c = 'w' then (acc.1 + pieceWeight heuristic t, acc.2)
        else (acc.1, acc.2 + pieceWeight heuristic t)) acc) ((0 : Int), (0 : Int))
  w - b

/-- The mutable `MiniChess` instance attributes that `make_move` writes:
`self.half_moves_since_capture` and `self.win_flag`.  (The remaining
attributes are configuration or I/O log state that `make_move` does not
touch.) -/
structure Inst where
  half_moves_since_capture : Nat
  win_flag : Bool
deriving DecidableEq, Repr

/-- Python `make_move(game_state, move, suppress_output, simulate)`.

Returns the updated instance attributes, the updated game state and the
`promotion` flag.  `suppress_output` only controls printing and is not
modelled.  Note that the update of `half_moves_since_capture` is **not**
guarded by `simulate` in the source — only `win_flag` is.

The source reads `piece[1]` without checking `piece != '.'`; it is only
ever called on validated moves, for which the source square is
non-empty (`Square.typeChar` returns the harmless `'.'` default on the
unreachable empty case). -/
def make_move (inst : Inst) (st : GameState) (m : Move) (simulate : Bool) :
    Inst × GameState × Bool :=
  let (start, e) := m
  let (start_row, start_col) := start
  let (end_row, end_col) := e
  let b := st.board
  let piece := getCell b start_row start_col
  let target := getCell b end_row end_col
  let captured : Bool := target ≠ Square.empty
  let win_flag' : Bool :=
    if captured ∧ ¬ simulate ∧ target.typeChar = 'K' then true else inst.win_flag
  let b1 := setCell b start_row start_col .empty
  let promotion : Bool :=
    piece.typeChar = 'p' ∧
      ((st.turn = .white ∧ end_row = 0) ∨
       (st.turn = .black ∧ end_row = BOARD_SIZE - 1))
  let piece' : Square := if promotion then .piece piece.colorChar 'Q' else piece
  let b2 := setCell b1 end_row end_col piece'
  let turn' := st.turn.flip
  let half' : Nat := if captured then 0 else inst.half_moves_since_capture + 1
  ({ half_moves_since_capture := half', win_flag := win_flag' },
   { board := b2, turn := turn' }, promotion)

/-- The game-state component of a simulated `make_move` (the effect of
`self.make_move(new_state, move, suppress_output=True, simulate=True)`
on `new_state` inside `minimax`); it does not depend on the instance
attributes (`make_move_state_indep` below). -/
def makeMoveState (st : GameState) (m : Move) : GameState :=
  (make_move ⟨0, false⟩ st m true).2.1

/-- Python `init_board()`: the fixed initial position, white to move. -/
def init_board : GameState :=
  { board :=
      [[.piece 'b' 'K', .piece 'b' 'Q', .piece 'b' 'B', .piece 'b' 'N', .empty],
       [.empty, .empty, .piece 'b' 'p', .piece 'b' 'p', .empty],
       [.empty, .empty, .empty, .empty, .empty],
       [.empty, .piece 'w' 'p', .piece 'w' 'p', .empty, .empty],
       [.empty, .piece 'w' 'N', .piece 'w' 'B', .piece 'w' 'Q', .piece 'w' 'K']],
    turn := .white }

/-- Search scores: the integers of `evaluate_board` together with the
sentinels `float('-inf')` (`⊥`) and `float('inf')` (`⊤`) used by
`minimax` and `ai_move`. -/
abbrev Score := WithTop (WithBot Int)

/-- An `evaluate_board` result as a `Score`. -/
def intScore (z : Int) : Score := ((z : WithBot Int) : Score)

/-- The maximizing `for move in valid_moves` loop of `minimax`:
accumulator `best`/`value`, window `alpha`/`beta`; `recurse` is the
recursive call at depth − 1 (with `maximizing=False`), of which only the
score is used.  With `useAB` the source updates
`alpha = max(alpha, value)` and breaks when `beta <= alpha`. -/
def maxLoop (useAB : Bool) (recurse : GameState → Score → Score → Option Move × Score)
    (st : GameState) :
    List Move → Option Move → Score → Score → Score → Option Move × Score
  | [], best, value, _, _ => (best, value)
  | mv :: rest, best, value, alpha, beta =>
    let score := (recurse (makeMoveState st mv) alpha beta).2
    let value' := if value < score then score else value
    let best' := if value < score then some mv else best
    if useAB then
      let alpha' := max alpha value'
      if beta ≤ alpha' then (best', value')
      else maxLoop useAB recurse st rest best' value' alpha' beta
    else maxLoop useAB recurse st rest best' value' alpha beta

/-- The minimizing loop of `minimax`; dual to `maxLoop`
(`beta = min(beta, value)`, break when `beta <= alpha`). -/
def minLoop (useAB : Bool) (recurse : GameState → Score → Score → Option Move × Score)
    (st : GameState) :
    List Move → Option Move → Score → Score → Score → Option Move × Score
  | [], best, value, _, _ => (best, value)
  | mv :: rest, best, value, alpha, beta =>
    let score := (recurse (makeMoveState st mv) alpha beta).2
    let value' := if score < value then score else value
    let best' := if score < value then some mv else best
    if useAB then
      let beta' := min beta value'
      if beta' ≤ alpha then (best', value')
      else minLoop useAB recurse st rest best' value' alpha beta'
    else minLoop useAB recurse st rest best' value' alpha beta

/-- Python `minimax(game_state, depth, maximizing, alpha, beta, ...)` with the
wall-clock checks assumed to never fire (the claims below about this
function are all "no timeout" claims; `minimaxT` models the clock).
Each simulated move is applied to `new_state = copy.deepcopy(game_state)`;
in this pure embedding the clone is simply the value `makeMoveState st mv`
and the instance-attribute side effect of the simulated `make_move` is
dropped, which is sound for the returned `(move, score)` because it does
not feed back into them (`make_move_state_indep`). -/
def minimax (heuristic : String) (useAB : Bool) :
    Nat → GameState → Bool → Score → Score → Option Move × Score
  | 0, st, _, _, _ => (none, intScore (evaluate_board heuristic st))
  | d + 1, st, maximizing, alpha, beta =>
    if is_game_over st then (none, intScore (evaluate_board heuristic st))
    else if maximizing then
      maxLoop useAB (fun st' a b => minimax heuristic useAB d st' false a b) st
        (get_all_valid_moves st) none ⊥ alpha beta
    else
      minLoop useAB (fun st' a b => minimax heuristic useAB d st' true a b) st
        (get_all_valid_moves st) none ⊤ alpha beta

/-- The iterative-deepening `while` loop of `ai_move`, no timeout:
the remaining depths (the source runs depths 1..5), the current
`(best_move, best_score)` (both `None` initially; only replaced when the
depth returned a non-`None` move). -/
def ai_loop (heuristic : String) (useAB : Bool) (st : GameState) (maximizing : Bool) :
    List Nat → Option Move × Option Score → Option Move × Option Score
  | [], best => best
  | d :: rest, best =>
    let r := minimax heuristic useAB d st maximizing ⊥ ⊤
    let best' := match r.1 with
      | none => best
      | some m => (some m, some r.2)
    ai_loop heuristic useAB st maximizing rest best'

/-- Python `ai_move(game_state)` with the wall-clock checks assumed to never
fire: iterative deepening over depths 1..5, white maximizes.  The
`move_time` component is wall-clock output and is not modelled here. -/
def ai_move (heuristic : String) (useAB : Bool) (st : GameState) :
    Option Move × Option Score :=
  ai_loop heuristic useAB st (st.turn = .white) [1, 2, 3, 4, 5] (none, none)

/-!
## Timed search

For the temporal claim about iterative deepening the wall clock is
modelled discretely: every call of `time.time()` (one at the head of
each `minimax` invocation, one at the head of each `ai_move` loop
iteration) advances the logical clock by one tick, and the poll made at
clock `c` reports expiry exactly when `c` exceeds the budget `limit`
(the source's `time.time() - start_time > time_limit`).
-/

/-- The maximizing loop of the timed `minimax`, threading the clock. -/
def maxLoopT (useAB : Bool)
    (recurse : GameState → Score → Score → Nat → (Option Move × Score) × Nat)
    (st : GameState) :
    List Move → Option Move → Score → Score → Score → Nat →
      (Option Move × Score) × Nat
  | [], best, value, _, _, c => ((best, value), c)
  | mv :: rest, best, value, alpha, beta, c =>
    let r := recurse (makeMoveState st mv) alpha beta c
    let score := r.1.2
    let value' := if value < score then score else value
    let best' := if value < score then some mv else best
    if useAB then
      let alpha' := max alpha value'
      if beta ≤ alpha' then ((best', value'), r.2)
      else maxLoopT useAB recurse st rest best' value' alpha' beta r.2
    else maxLoopT useAB recurse st rest best' value' alpha beta r.2

/-- The minimizing loop of the timed `minimax`, threading the clock. -/
def minLoopT (useAB : Bool)
    (recurse : GameState → Score → Score → Nat → (Option Move × Score) × Nat)
    (st : GameState) :
    List Move → Option Move → Score → Score → Score → Nat →
      (Option Move × Score) × Nat
  | [], best, value, _, _, c => ((best, value), c)
  | mv :: rest, best, value, alpha, beta, c =>
    let r := recurse (makeMoveState st mv) alpha beta c
    let score := r.1.2
    let value' := if score < value then score else value
    let best' := if score < value then some mv else best
    if useAB then
      let beta' := min beta value'
      if beta' ≤ alpha then ((best', value'), r.2)
      else minLoopT useAB recurse st rest best' value' alpha beta' r.2
    else minLoopT useAB recurse st rest best' value' alpha beta r.2

/-- Timed `minimax` with the discrete clock: the poll at the head of the call
(`if time.time() - start_time > time_limit: return None, evaluate`)
reads the clock `c`, reports expiry when `limit < c`, and advances the
clock.  A timed-out node returns the static evaluation with a `None`
move, exactly as the source. -/
def minimaxT (heuristic : String) (useAB : Bool) (limit : Nat) :
    Nat → GameState → Bool → Score → Score → Nat → (Option Move × Score) × Nat
  | d, st, maximizing, alpha, beta, c =>
    if limit < c then ((none, intScore (evaluate_board heuristic st)), c + 1)
    else
      match d with
      | 0 => ((none, intScore (evaluate_board heuristic st)), c + 1)
      | d + 1 =>
        if is_game_over st then
          ((none, intScore (evaluate_board heuristic st)), c + 1)
        else if maximizing then
          maxLoopT useAB (fun st' a b c' => minimaxT heuristic useAB limit d st' false a b c')
            st (get_all_valid_moves st) none ⊥ alpha beta (c + 1)
        else
          minLoopT useAB (fun st' a b c' => minimaxT heuristic useAB limit d st' true a b c')
            st (get_all_valid_moves st) none ⊤ alpha beta (c + 1)

/-- The timed iterative-deepening loop of `ai_move`: poll at the head of
each iteration (break on expiry), then run the depth, then keep its
result only when it returned a usable (non-`None`) move. -/
def ai_loopT (heuristic : String) (useAB : Bool) (limit : Nat) (st : GameState)
    (maximizing : Bool) :
    List Nat → Option Move × Option Score → Nat → (Option Move × Option Score) × Nat
  | [], best, c => (best, c)
  | d :: rest, best, c =>
    if limit < c then (best, c + 1)
    else
      let r := minimaxT heuristic useAB limit d st maximizing ⊥ ⊤ (c + 1)
      let best' := match r.1.1 with
        | none => best
        | some m => (some m, some r.1.2)
      ai_loopT heuristic useAB limit st maximizing rest best' r.2

/-- Python `ai_move(game_state)` under the discrete clock, starting at clock 0
with budget `limit`; returns the final `(best_move, best_score)` and the
final clock. -/
def ai_moveT (heuristic : String) (useAB : Bool) (limit : Nat) (st : GameState) :
    (Option Move × Option Score) × Nat :=
  ai_loopT heuristic useAB limit st (st.turn = .white) [1, 2, 3, 4, 5] (none, none) 0

/-!
## Specification-side definitions

These restate parts of the specification in a form independent of the
control flow of the source, for comparison with the embedded code.
-/

/-- The board-shape invariant of the data model: the grid is exactly
5×5.  `init_board` satisfies it and `make_move` preserves it
(`List.set` preserves lengths). -/
def wellFormed (st : GameState) : Prop :=
  st.board.length = 5 ∧ ∀ row ∈ st.board, row.length = 5

instance (st : GameState) : Decidable (wellFormed st) := by
  unfold wellFormed; infer_instance

/-- Number of King pieces on the board (the specification's "count of
King pieces currently on the board"). -/
def kingCount (st : GameState) : Nat :=
  st.board.flatten.countP isKing

/-- The specification's ordered validation checks (1)–(4), each paired
with the reason reported when it is the first to fail; checks (3) and
(4) of the specification are the two ownership tests, check (5) is the
piece-specific rule handled by `validateMoveSpec`'s fall-through. -/
def orderedChecks (st : GameState) (m : Move) : List (Bool × Reason) :=
  let src := getCell st.board m.1.1 m.1.2
  let tgt := getCell st.board m.2.1 m.2.2
  [ (is_within_bounds m.1.1 m.1.2, .startOutOfBounds),
    (is_within_bounds m.2.1 m.2.2, .destOutOfBounds),
    (src ≠ Square.empty, .emptySource),
    (¬ (st.turn = .white ∧ src.colorChar ≠ 'w'), .notWhitePiece),
    (¬ (st.turn = .black ∧ src.colorChar ≠ 'b'), .notBlackPiece),
    (¬ (tgt ≠ Square.empty ∧ tgt.colorChar = src.colorChar), .ownPieceAtDest) ]

/-- Validation as the specification words it: report the reason of the
**first** failing check, and only if every check passes consult the
piece-specific movement rule. -/
def validateMoveSpec (st : GameState) (m : Move) : Bool × Reason :=
  match (orderedChecks st m).find? (fun c => ! c.1) with
  | some c => (false, c.2)
  | none =>
    let src := getCell st.board m.1.1 m.1.2
    pieceRule st.board st.turn src.colorChar src.typeChar m.1 m.2

/-- All 25 squares in row-major order. -/
def squaresRowMajor : List (Int × Int) :=
  (List.range 5).flatMap fun (r : Nat) =>
    (List.range 5).map fun (c : Nat) => ((r : Int), (c : Int))

/-- All 625 (start, end) pairs, row-major over start squares and, for
each start square, row-major over end squares. -/
def allMovePairs : List Move :=
  squaresRowMajor.flatMap fun s => squaresRowMajor.map fun e => (s, e)

/-!
## Concrete states used by witnesses and counterexamples
-/

/-- A state (white to move) in which white has **no** valid moves while
both Kings are still on the board: the white King is walled into the
corner by white pawns, every white pawn is blocked by a piece straight
ahead and has no enemy piece on its capture diagonals (the two pawns on
row 0 have no forward square at all). -/
def noMoveState : GameState :=
  { board :=
      [[.piece 'b' 'K', .empty, .empty, .piece 'w' 'p', .piece 'w' 'p'],
       [.empty, .empty, .empty, .piece 'w' 'p', .piece 'w' 'p'],
       [.empty, .empty, .empty, .piece 'w' 'p', .piece 'w' 'p'],
       [.empty, .empty, .empty, .piece 'w' 'p', .piece 'w' 'p'],
       [.empty, .empty, .empty, .piece 'w' 'p', .piece 'w' 'K']],
    turn := .white }

/-- A state (white to move) exercising the iterative-deepening timeout.
Material is +4 for white.  The first generated move A = (2,2)→(1,1)
(pawn takes bishop, recaptured: depth-2 value 6); the later move
B = (3,3)→(3,4) (queen takes knight, after which black's best is to
take a pawn: depth-2 value 6, static value 7).  Depth 1 returns (A, 7);
depth 2 returns (A, 6). -/
def deepState : GameState :=
  { board :=
      [[.empty, .empty, .piece 'b' 'p', .empty, .empty],
       [.empty, .piece 'b' 'B', .empty, .empty, .empty],
       [.piece 'b' 'K', .empty, .piece 'w' 'p', .empty, .empty],
       [.piece 'w' 'p', .empty, .empty, .piece 'w' 'Q', .piece 'b' 'N'],
       [.empty, .empty, .empty, .empty, .piece 'w' 'K']],
    turn := .white }

/-- A two-king state (white to move) with a white pawn on (1,1) one
step from promotion. -/
def promoState : GameState :=
  { board :=
      [[.empty, .empty, .empty, .empty, .empty],
       [.empty, .piece 'w' 'p', .empty, .empty, .empty],
       [.empty, .empty, .empty, .empty, .empty],
       [.piece 'b' 'K', .empty, .empty, .empty, .empty],
       [.empty, .empty, .empty, .empty, .piece 'w' 'K']],
    turn := .white }

/-- A state with exactly two Kings in which white's queen can capture
the black King. -/
def kingCaptureState : GameState :=
  { board :=
      [[.piece 'w' 'Q', .piece 'b' 'K', .empty, .empty, .empty],
       [.empty, .empty, .empty, .empty, .empty],
       [.empty, .empty, .empty, .empty, .empty],
       [.empty, .empty, .empty, .empty, .empty],
       [.empty, .empty, .empty, .empty, .piece 'w' 'K']],
    turn := .white }

/-!
## Basic lemmas
-/

/-- The game-state returned by `make_move` depends only on the game
state and the move, not on the instance attributes or on `simulate`. -/
theorem make_move_state_indep (inst : Inst) (st : GameState) (m : Move)
    (simulate : Bool) :
    (make_move inst st m simulate).2.1 = makeMoveState st m := rfl

theorem getD_set_self {α : Type} (l : List α) (i : Nat) (a d : α)
    (h : i < l.length) : (l.set i a).getD i d = a := by
  rw [List.getD_eq_getElem?_getD, List.getElem?_set]
  simp [h]

theorem getD_set_ne {α : Type} (l : List α) (i j : Nat) (a d : α)
    (h : i ≠ j) : (l.set i a).getD j d = l.getD j d := by
  rw [List.getD_eq_getElem?_getD, List.getElem?_set, if_neg h,
    ← List.getD_eq_getElem?_getD]

theorem getD_set_oob {α : Type} (l : List α) (i : Nat) (a d : α)
    (h : ¬ i < l.length) : (l.set i a).getD i d = l.getD i d := by
  rw [List.getD_eq_getElem?_getD, List.getElem?_set]
  simp only [if_pos rfl, if_neg h]
  have h1 : l[i]? = none := by rw [List.getElem?_eq_none_iff]; omega
  rw [List.getD_eq_getElem?_getD, h1]
  simp

theorem getCell_setCell_self (b : Board) (r c : Int) (sq : Square)
    (hr : r.toNat < b.length) (hc : c.toNat < (b.getD r.toNat []).length) :
    getCell (setCell b r c sq) r c = sq := by
  unfold getCell setCell
  rw [getD_set_self _ _ _ _ hr, getD_set_self _ _ _ _ (by simpa using hc)]

theorem getCell_setCell_ne (b : Board) (r c r' c' : Int) (sq : Square)
    (h : r.toNat ≠ r'.toNat ∨ c.toNat ≠ c'.toNat) :
    getCell (setCell b r c sq) r' c' = getCell b r' c' := by
  unfold getCell setCell
  rcases Nat.decEq r.toNat r'.toNat with hr | hr
  · rw [getD_set_ne _ _ _ _ _ hr]
  · rcases h with h | h
    · exact absurd hr h
    · rw [← hr]
      by_cases hlen : r.toNat < b.length
      · rw [getD_set_self _ _ _ _ hlen, getD_set_ne _ _ _ _ _ h]
      · rw [getD_set_oob _ _ _ _ hlen]

theorem setCell_length (b : Board) (r c : Int) (sq : Square) :
    (setCell b r c sq).length = b.length := by
  unfold setCell; exact List.length_set b _ _

/-- The row-wise King-counting fold of `is_game_over` counts `countP`. -/
theorem foldl_count_row (p : Square → Bool) (row : List Square) (k : Nat) :
    row.foldl (fun k sq => if p sq then k + 1 else k) k = k + row.countP p := by
  induction row generalizing k with
  | nil => simp
  | cons sq rest ih =>
    rw [List.foldl_cons, ih, List.countP_cons]
    by_cases h : p sq
    · simp [h]; omega
    · simp [h]

/-- The nested fold of `is_game_over` computes `kingCount`. -/
theorem kings_fold_eq (b : Board) (k : Nat) :
    b.foldl (fun kings row =>
      row.foldl (fun kings sq => if isKing sq then kings + 1 else kings) kings) k
      = k + b.flatten.countP isKing := by
  induction b generalizing k with
  | nil => simp
  | cons row rest ih =>
    rw [List.foldl_cons, foldl_count_row, ih, List.flatten_cons, List.countP_append]
    omega

/-- The function `is_game_over` decides `kingCount < 2`. -/
theorem is_game_over_iff (st : GameState) :
    is_game_over st = true ↔ kingCount st < 2 := by
  unfold is_game_over kingCount
  rw [kings_fold_eq]
  simp

/-- Everything `validate_move` checks before the piece-specific rule,
extracted from acceptance: both coordinates in bounds, source
non-empty, source owned by the side to move, destination not occupied
by a same-colour piece. -/
theorem validate_move_sound (st : GameState) (m : Move)
    (hv : (validate_move st m).1 = true) :
    is_within_bounds m.1.1 m.1.2 = true ∧
    is_within_bounds m.2.1 m.2.2 = true ∧
    getCell st.board m.1.1 m.1.2 ≠ Square.empty ∧
    (st.turn = .white → (getCell st.board m.1.1 m.1.2).colorChar = 'w') ∧
    (st.turn = .black → (getCell st.board m.1.1 m.1.2).colorChar = 'b') ∧
    ¬ (getCell st.board m.2.1 m.2.2 ≠ Square.empty ∧
       (getCell st.board m.2.1 m.2.2).colorChar
         = (getCell st.board m.1.1 m.1.2).colorChar) := by
  obtain ⟨⟨sr, sc⟩, er, ec⟩ := m
  simp only [validate_move] at hv ⊢
  split at hv
  · simp at hv
  next h1 =>
  split at hv
  · simp at hv
  next h2 =>
  split at hv
  next hsrc => simp at hv
  next pc pt hsrc =>
    rw [hsrc]
    split at hv
    · simp at hv
    next h3 =>
    split at hv
    · simp at hv
    next h4 =>
    split at hv
    next h5 => simp at hv
    next h5 =>
      refine ⟨by simpa using h1, by simpa using h2, by simp, ?_, ?_, by simpa using h5⟩
      · intro hw
        by_contra hc
        exact h3 ⟨hw, by simpa using hc⟩
      · intro hb
        by_contra hc
        exact h4 ⟨hb, by simpa using hc⟩

/-- In-bounds coordinates index a well-formed board within range. -/
theorem wf_cell_bounds (st : GameState) (hw : wellFormed st) (r c : Int)
    (h : is_within_bounds r c = true) :
    r.toNat < st.board.length ∧ c.toNat < (st.board.getD r.toNat []).length := by
  simp only [is_within_bounds, BOARD_SIZE, decide_eq_true_eq] at h
  obtain ⟨h0, h1, h2, h3⟩ := h
  have hr : r.toNat < st.board.length := by rw [hw.1]; omega
  refine ⟨hr, ?_⟩
  have hmem : st.board.getD r.toNat [] ∈ st.board := by
    rw [List.getD_eq_getElem?_getD, List.getElem?_eq_getElem hr]
    exact List.getElem_mem hr
  rw [hw.2 _ hmem]
  omega

/-- The function `setCell` does not change the length of any row. -/
theorem setCell_row_length (b : Board) (r c : Int) (sq : Square) (r' : Nat) :
    ((setCell b r c sq).getD r' []).length = (b.getD r' []).length := by
  unfold setCell
  by_cases h : r.toNat = r'
  · rw [← h]
    by_cases hlen : r.toNat < b.length
    · rw [getD_set_self _ _ _ _ hlen, List.length_set]
    · rw [getD_set_oob _ _ _ _ hlen]
  · rw [getD_set_ne _ _ _ _ _ h]

/-- Setting one element trades its count contribution for the new
element's (stated additively to avoid truncated subtraction). -/
theorem countP_set_add (p : Square → Bool) (l : List Square) (i : Nat)
    (a : Square) (h : i < l.length) :
    (l.set i a).countP p + (if p (l.getD i .empty) then 1 else 0)
      = l.countP p + (if p a then 1 else 0) := by
  induction l generalizing i with
  | nil => simp at h
  | cons x rest ih =>
    cases i with
    | zero =>
      simp only [List.set_cons_zero, List.countP_cons, List.getD_cons_zero]
      by_cases hx : p x
      · by_cases ha : p a
        · simp [hx, ha]
        · simp [hx, ha]
      · by_cases ha : p a
        · simp [hx, ha]
        · simp [hx, ha]
    | succ n =>
      simp only [List.set_cons_succ, List.countP_cons, List.getD_cons_succ]
      have := ih n (by simpa using h)
      by_cases hx : p x
      · simp only [hx, if_true]; omega
      · simp only [hx, if_false]; omega

/-- Board-level version of `countP_set_add`. -/
theorem countP_flatten_set (p : Square → Bool) (b : Board) (i : Nat)
    (row' : List Square) (h : i < b.length) :
    ((b.set i row').flatten.countP p) + ((b.getD i []).countP p)
      = b.flatten.countP p + row'.countP p := by
  induction b generalizing i with
  | nil => simp at h
  | cons row rest ih =>
    cases i with
    | zero =>
      simp only [List.set_cons_zero, List.flatten_cons, List.countP_append,
        List.getD_cons_zero]
      omega
    | succ n =>
      simp only [List.set_cons_succ, List.flatten_cons, List.countP_append,
        List.getD_cons_succ]
      have := ih n (by simpa using h)
      omega

/-- The function `setCell` trades the old cell's count contribution for the new one. -/
theorem countP_flatten_setCell (p : Square → Bool) (b : Board) (r c : Int)
    (sq : Square) (hr : r.toNat < b.length)
    (hc : c.toNat < (b.getD r.toNat []).length) :
    (setCell b r c sq).flatten.countP p + (if p (getCell b r c) then 1 else 0)
      = b.flatten.countP p + (if p sq then 1 else 0) := by
  unfold setCell getCell
  have h1 := countP_flatten_set p b r.toNat ((b.getD r.toNat []).set c.toNat sq) hr
  have h2 := countP_set_add p (b.getD r.toNat []) c.toNat sq hc
  omega

/-- A square whose type character is `'K'` is not empty. -/
theorem ne_empty_of_typeChar_K (sq : Square) (h : sq.typeChar = 'K') :
    sq ≠ Square.empty := by
  cases sq with
  | empty => simp [Square.typeChar] at h
  | piece c t => simp

/-!
## Claim theorems
-/

/-- C1 (code bug): the claim states that a simulated move
(`make_move` with `simulate=True` inside `minimax`) changes no
observable component of the real game state, *including the
half-move-since-capture counter*.  The cloned board and side to move
are indeed untouched, but `make_move` updates the instance attribute
`self.half_moves_since_capture` unconditionally — `simulate` only
guards `win_flag` — so every simulated move mutates the real game's
draw counter.  Evaluated here at the initial position and the white
pawn move (3,1)→(2,1): the move is valid, and its simulated
application bumps the counter from 0 to 1. -/
theorem c1_simulated_move_mutates_counter :
    (validate_move init_board ((3, 1), (2, 1))).1 = true ∧
    (make_move ⟨0, false⟩ init_board ((3, 1), (2, 1)) true).1.half_moves_since_capture
      = 1 ∧
    (make_move ⟨0, false⟩ init_board ((3, 1), (2, 1)) true).1.half_moves_since_capture
      ≠ 0 := by
  refine ⟨by decide, by decide, by decide⟩

/-- C4: after any validated move is applied, the half-move clock is
0 when the destination square was occupied (a capture) and the old
clock plus one otherwise, and the side to move is flipped. -/
theorem c4_clock_reset_and_turn_alternation (inst : Inst) (st : GameState)
    (m : Move) (simulate : Bool) (hv : (validate_move st m).1 = true) :
    (make_move inst st m simulate).1.half_moves_since_capture
      = (if getCell st.board m.2.1 m.2.2 ≠ Square.empty then 0
         else inst.half_moves_since_capture + 1) ∧
    (make_move inst st m simulate).2.1.turn = st.turn.flip := by
  obtain ⟨⟨sr, sc⟩, er, ec⟩ := m
  refine ⟨?_, rfl⟩
  by_cases hcap : getCell st.board er ec = Square.empty
  · simp [make_move, hcap]
  · simp [make_move, hcap]

/-- Witness for `c4_clock_reset_and_turn_alternation`: the specification
scenario — from the initial position, the white pawn move (3,1)→(2,1)
is valid, is no capture, sets the clock to 1 and hands the move to
black. -/
theorem c4_witness :
    (validate_move init_board ((3, 1), (2, 1))).1 = true ∧
    (make_move ⟨0, false⟩ init_board ((3, 1), (2, 1)) false).1.half_moves_since_capture
      = (if getCell init_board.board 2 1 ≠ Square.empty then 0 else 0 + 1) ∧
    (make_move ⟨0, false⟩ init_board ((3, 1), (2, 1)) false).2.1.turn
      = init_board.turn.flip :=
  ⟨by decide,
   (c4_clock_reset_and_turn_alternation ⟨0, false⟩ init_board ((3, 1), (2, 1))
     false (by decide)).1,
   (c4_clock_reset_and_turn_alternation ⟨0, false⟩ init_board ((3, 1), (2, 1))
     false (by decide)).2⟩

/-- C5: a validated move promotes exactly when the moved piece is a
pawn ending on the far rank relative to its own colour (row 0 for a
white pawn, row 4 for a black pawn); a promoted pawn is replaced on the
destination square by a Queen of the same colour, and otherwise the
destination receives the moved piece unchanged with the flag false. -/
theorem c5_promotion (inst : Inst) (st : GameState) (m : Move) (simulate : Bool)
    (hw : wellFormed st) (hv : (validate_move st m).1 = true) :
    ((make_move inst st m simulate).2.2 = true ↔
      ((getCell st.board m.1.1 m.1.2).typeChar = 'p' ∧
        (((getCell st.board m.1.1 m.1.2).colorChar = 'w' ∧ m.2.1 = 0) ∨
         ((getCell st.board m.1.1 m.1.2).colorChar = 'b' ∧ m.2.1 = 4)))) ∧
    ((make_move inst st m simulate).2.2 = true →
      getCell (make_move inst st m simulate).2.1.board m.2.1 m.2.2
        = Square.piece (getCell st.board m.1.1 m.1.2).colorChar 'Q') ∧
    ((make_move inst st m simulate).2.2 = false →
      getCell (make_move inst st m simulate).2.1.board m.2.1 m.2.2
        = getCell st.board m.1.1 m.1.2) := by
  obtain ⟨⟨sr, sc⟩, er, ec⟩ := m
  obtain ⟨hb1, hb2, hne, hwcol, hbcol, hdest⟩ :=
    validate_move_sound st ((sr, sc), (er, ec)) hv
  have hbnds2 := wf_cell_bounds st hw er ec hb2
  have hself : ∀ P : Square,
      getCell (setCell (setCell st.board sr sc .empty) er ec P) er ec = P := by
    intro P
    apply getCell_setCell_self
    · rw [setCell_length]; exact hbnds2.1
    · rw [setCell_row_length]; exact hbnds2.2
  have hpr : (make_move inst st ((sr, sc), (er, ec)) simulate).2.2 = true ↔
      ((getCell st.board sr sc).typeChar = 'p' ∧
        ((st.turn = Color.white ∧ er = 0) ∨
         (st.turn = Color.black ∧ er = BOARD_SIZE - 1))) := by
    simp [make_move]
  have hcolor : ((st.turn = Color.white ∧ er = 0) ∨
        (st.turn = Color.black ∧ er = BOARD_SIZE - 1)) ↔
      (((getCell st.board sr sc).colorChar = 'w' ∧ er = 0) ∨
       ((getCell st.board sr sc).colorChar = 'b' ∧ er = 4)) := by
    have h4 : BOARD_SIZE - 1 = (4 : Int) := by decide
    rw [h4]
    cases hturn : st.turn with
    | white =>
      have hcw := hwcol hturn
      rw [hcw]
      simp
    | black =>
      have hcb := hbcol hturn
      rw [hcb]
      simp
  have hgb : getCell (make_move inst st ((sr, sc), (er, ec)) simulate).2.1.board er ec
      = (if ((getCell st.board sr sc).typeChar = 'p' ∧
            ((st.turn = Color.white ∧ er = 0) ∨
             (st.turn = Color.black ∧ er = BOARD_SIZE - 1)))
         then Square.piece (getCell st.board sr sc).colorChar 'Q'
         else getCell st.board sr sc) := by
    have : (make_move inst st ((sr, sc), (er, ec)) simulate).2.1.board
        = setCell (setCell st.board sr sc .empty) er ec
            (if ((getCell st.board sr sc).typeChar = 'p' ∧
                ((st.turn = Color.white ∧ er = 0) ∨
                 (st.turn = Color.black ∧ er = BOARD_SIZE - 1)))
             then Square.piece (getCell st.board sr sc).colorChar 'Q'
             else getCell st.board sr sc) := by
      simp only [make_move]
      split
      next hcond =>
        rw [if_pos (by simpa using hcond)]
      next hcond =>
        rw [if_neg (by simpa using hcond)]
    rw [this, hself]
  refine ⟨hpr.trans (and_congr_right fun _ => hcolor), ?_, ?_⟩
  · intro hp
    rw [hgb, if_pos (hpr.mp hp)]
  · intro hp
    rw [hgb, if_neg ?_]
    intro hcond
    rw [← hpr] at hcond
    rw [hcond] at hp
    exact Bool.noConfusion hp

/-- Witness for `c5_promotion`: in `promoState` the white pawn advances
(1,1)→(0,1) and promotes to a white queen. -/
theorem c5_witness :
    wellFormed promoState ∧
    (validate_move promoState ((1, 1), (0, 1))).1 = true ∧
    (make_move ⟨0, false⟩ promoState ((1, 1), (0, 1)) false).2.2 = true := by
  refine ⟨by decide, by decide, ?_⟩
  exact (c5_promotion ⟨0, false⟩ promoState ((1, 1), (0, 1)) false (by decide)
    (by decide)).1.mpr (by decide)

/-- C6: `is_game_over` holds exactly when fewer than two Kings are
on the board; and in any two-King state, a validated real move
(`simulate=False`) onto a King square raises `win_flag` (the
`isWinningCapture` of the spec) and leaves a state that is game-over. -/
theorem c6_game_over_and_winning_capture (inst : Inst) (st : GameState) (m : Move) :
    (is_game_over st = true ↔ kingCount st < 2) ∧
    (wellFormed st → (validate_move st m).1 = true → kingCount st = 2 →
      (getCell st.board m.2.1 m.2.2).typeChar = 'K' →
      (make_move inst st m false).1.win_flag = true ∧
      is_game_over (make_move inst st m false).2.1 = true) := by
  refine ⟨is_game_over_iff st, ?_⟩
  intro hw hv hk hdk
  obtain ⟨⟨sr, sc⟩, er, ec⟩ := m
  obtain ⟨hb1, hb2, hne, hwcol, hbcol, hdest⟩ :=
    validate_move_sound st ((sr, sc), (er, ec)) hv
  have hdk' : getCell st.board er ec ≠ Square.empty :=
    ne_empty_of_typeChar_K _ hdk
  have hneq : sr.toNat ≠ er.toNat ∨ sc.toNat ≠ ec.toNat := by
    by_contra hcon
    push_neg at hcon
    have hsame : getCell st.board er ec = getCell st.board sr sc := by
      unfold getCell; rw [hcon.1, hcon.2]
    exact hdest ⟨hdk', by rw [hsame]⟩
  constructor
  · simp [make_move, hdk', hdk]
  · rw [is_game_over_iff]
    have hbnds1 := wf_cell_bounds st hw sr sc hb1
    have hbnds2 := wf_cell_bounds st hw er ec hb2
    unfold kingCount at hk ⊢
    have key : ∀ P : Square,
        (if isKing P then 1 else 0)
          ≤ (if isKing (getCell st.board sr sc) then 1 else 0) →
        ((setCell (setCell st.board sr sc .empty) er ec P) :
          Board).flatten.countP isKing < 2 := by
      intro P hPle
      have e1 := countP_flatten_setCell isKing st.board sr sc .empty
        hbnds1.1 hbnds1.2
      have hq2 : er.toNat < (setCell st.board sr sc .empty).length := by
        rw [setCell_length]; exact hbnds2.1
      have hq3 : ec.toNat <
          ((setCell st.board sr sc .empty).getD er.toNat []).length := by
        rw [setCell_row_length]; exact hbnds2.2
      have e2 := countP_flatten_setCell isKing (setCell st.board sr sc .empty)
        er ec P hq2 hq3
      have hge : getCell (setCell st.board sr sc .empty) er ec
          = getCell st.board er ec :=
        getCell_setCell_ne _ _ _ _ _ _ hneq
      have hdk2 : isKing (getCell st.board er ec) = true := by
        simp [isKing, hdk', hdk]
      rw [hge, hdk2] at e2
      simp only [if_true] at e2
      have hempty : (if isKing Square.empty then 1 else 0) = 0 := by
        simp [isKing]
      rw [hempty] at e1
      omega
    simp only [make_move]
    exact key _ (by
      split
      · simp [isKing, Square.typeChar]
      · exact le_refl _)

/-- Witness for `c6_game_over_and_winning_capture`: in
`kingCaptureState` (exactly two Kings) the white queen's move
(0,0)→(0,1) captures the black King; the theorem then gives
`win_flag = true` and a game-over state. -/
theorem c6_witness :
    wellFormed kingCaptureState ∧
    (validate_move kingCaptureState ((0, 0), (0, 1))).1 = true ∧
    kingCount kingCaptureState = 2 ∧
    (getCell kingCaptureState.board 0 1).typeChar = 'K' ∧
    (make_move ⟨0, false⟩ kingCaptureState ((0, 0), (0, 1)) false).1.win_flag = true ∧
    is_game_over (make_move ⟨0, false⟩ kingCaptureState ((0, 0), (0, 1)) false).2.1
      = true := by
  refine ⟨by decide, by decide, by decide, by decide, ?_⟩
  exact (c6_game_over_and_winning_capture ⟨0, false⟩ kingCaptureState
    ((0, 0), (0, 1))).2 (by decide) (by decide) (by decide) (by decide)

/-- C10: a move whose start and end squares coincide is always
rejected: on an empty square it fails the non-empty-source check, and on
a square holding the mover's own piece it fails the own-colour
destination check (before any piece-specific rule). -/
theorem c10_null_moves_rejected (st : GameState) (s : Int × Int) :
    (validate_move st (s, s)).1 = false ∧
    (is_within_bounds s.1 s.2 = true → getCell st.board s.1 s.2 = Square.empty →
      validate_move st (s, s) = (false, .emptySource)) ∧
    (is_within_bounds s.1 s.2 = true →
      ownedByTurn st.turn (getCell st.board s.1 s.2) = true →
      validate_move st (s, s) = (false, .ownPieceAtDest)) := by
  obtain ⟨r, c⟩ := s
  by_cases hb : is_within_bounds r c = true
  · rcases hsq : getCell st.board r c with _ | ⟨pc, pt⟩
    · refine ⟨?_, fun _ _ => ?_, fun _ hown => ?_⟩
      · simp [validate_move, hb, hsq]
      · simp [validate_move, hb, hsq]
      · simp [ownedByTurn] at hown
    · have hcol : (Square.piece pc pt).colorChar = pc := rfl
      refine ⟨?_, fun _ habs => ?_, fun _ hown => ?_⟩
      · cases hturn : st.turn with
        | white =>
          by_cases hpc : pc = 'w'
          · simp [validate_move, hb, hsq, hturn, hpc, Square.colorChar]
          · simp [validate_move, hb, hsq, hturn, hpc, Square.colorChar]
        | black =>
          by_cases hpc : pc = 'b'
          · simp [validate_move, hb, hsq, hturn, hpc, Square.colorChar]
          · simp [validate_move, hb, hsq, hturn, hpc, Square.colorChar]
      · exact absurd habs (by simp)
      · simp only [ownedByTurn, hcol] at hown
        rcases (by simpa using hown : _ ∨ _) with ⟨hturn, hpc⟩ | ⟨hturn, hpc⟩
        · simp [validate_move, hb, hsq, hturn, hpc, Square.colorChar]
        · simp [validate_move, hb, hsq, hturn, hpc, Square.colorChar]
  · refine ⟨?_, fun habs _ => absurd habs hb, fun habs _ => absurd habs hb⟩
    simp [validate_move, hb]

/-- Witness for `c10_null_moves_rejected`: at the initial position the
null move on (3,1) (white pawn, white to move) is rejected with the
own-piece reason, and the null move on the empty square (2,2) with the
empty-source reason. -/
theorem c10_witness :
    validate_move init_board ((3, 1), (3, 1)) = (false, .ownPieceAtDest) ∧
    validate_move init_board ((2, 2), (2, 2)) = (false, .emptySource) :=
  ⟨(c10_null_moves_rejected init_board (3, 1)).2.2 (by decide) (by decide),
   (c10_null_moves_rejected init_board (2, 2)).2.1 (by decide) (by decide)⟩

/-- C3: `validate_move` applies its checks in exactly the
specification's precedence and reports the first failing one:
(1) start in bounds, (2) destination in bounds, (3) source non-empty,
(4a/4b) source owned by the side to move, (5) destination not occupied
by an own-colour piece, and only then the piece-specific movement rule
— i.e. it coincides with `validateMoveSpec`, which returns the reason
of the first failing entry of the ordered check list. -/
theorem c3_validation_precedence (st : GameState) (m : Move) :
    validate_move st m = validateMoveSpec st m := by
  obtain ⟨⟨sr, sc⟩, er, ec⟩ := m
  rcases hb1 : is_within_bounds sr sc with _ | _
  · simp [validate_move, validateMoveSpec, orderedChecks, List.find?, hb1]
  rcases hb2 : is_within_bounds er ec with _ | _
  · simp [validate_move, validateMoveSpec, orderedChecks, List.find?, hb1, hb2]
  rcases hsq : getCell st.board sr sc with _ | ⟨pc, pt⟩
  · simp [validate_move, validateMoveSpec, orderedChecks, List.find?, hb1, hb2, hsq]
  by_cases hwt : st.turn = Color.white ∧ pc ≠ 'w'
  · simp [validate_move, validateMoveSpec, orderedChecks, List.find?, hb1, hb2, hsq,
      Square.colorChar, hwt]
  by_cases hbt : st.turn = Color.black ∧ pc ≠ 'b'
  · simp [validate_move, validateMoveSpec, orderedChecks, List.find?, hb1, hb2, hsq,
      Square.colorChar, hwt, hbt]
  rcases htg : getCell st.board er ec with _ | ⟨tc, tt⟩
  · simp [validate_move, validateMoveSpec, orderedChecks, List.find?, hb1, hb2, hsq,
      Square.colorChar, Square.typeChar, hwt, hbt, htg]
  by_cases hpc : tc = pc
  · simp [validate_move, validateMoveSpec, orderedChecks, List.find?, hb1, hb2, hsq,
      Square.colorChar, hwt, hbt, htg, hpc]
  · simp [validate_move, validateMoveSpec, orderedChecks, List.find?, hb1, hb2, hsq,
      Square.colorChar, Square.typeChar, hwt, hbt, htg, hpc]

/-- Rewriting of `List.filter` as a `flatMap` of conditional singletons. -/
theorem filter_eq_flatMap_ite {α : Type} (l : List α) (p : α → Bool) :
    l.filter p = l.flatMap (fun a => if p a then [a] else []) := by
  induction l with
  | nil => rfl
  | cons x rest ih =>
    by_cases h : p x
    · simp [List.filter_cons, h, ih]
    · simp [List.filter_cons, h, ih]

/-- A move from a square not owned by the side to move is always
rejected by `validate_move` (empty source or wrong colour). -/
theorem reject_unowned (st : GameState) (s e : Int × Int)
    (h : ownedByTurn st.turn (getCell st.board s.1 s.2) = false) :
    (validate_move st (s, e)).1 = false := by
  obtain ⟨r, c⟩ := s
  rcases hb1 : is_within_bounds r c with _ | _
  · simp [validate_move, hb1]
  rcases hb2 : is_within_bounds e.1 e.2 with _ | _
  · simp [validate_move, hb1, hb2]
  rcases hsq : getCell st.board r c with _ | ⟨pc, pt⟩
  · simp [validate_move, hb1, hb2, hsq]
  · rw [hsq] at h
    simp only [ownedByTurn, Square.colorChar] at h
    cases hturn : st.turn with
    | white =>
      have hpc : ¬ pc = 'w' := by
        intro hc
        rw [hturn] at h
        simp [hc] at h
      simp [validate_move, hb1, hb2, hsq, hturn, hpc]
    | black =>
      have hpc : ¬ pc = 'b' := by
        intro hc
        rw [hturn] at h
        simp [hc] at h
      simp [validate_move, hb1, hb2, hsq, hturn, hpc]

/-- The inner two loops of `get_all_valid_moves` for one start square,
expressed as a filter over the row-major end squares. -/
theorem per_start_square (st : GameState) (s : Int × Int) :
    (squaresRowMajor.map fun e => ((s, e) : Move)).filter
        (fun m => (validate_move st m).1)
      = if ownedByTurn st.turn (getCell st.board s.1 s.2) then
          (List.range 5).flatMap fun x =>
            (List.range 5).flatMap fun y =>
              if (validate_move st (s, ((x : Int), (y : Int)))).1 then
                [((s, ((x : Int), (y : Int))) : Move)]
              else []
        else [] := by
  by_cases h : ownedByTurn st.turn (getCell st.board s.1 s.2) = true
  · rw [if_pos h, List.filter_map, filter_eq_flatMap_ite, List.map_flatMap]
    unfold squaresRowMajor
    rw [List.flatMap_assoc]
    apply List.flatMap_congr
    intro x _
    rw [List.flatMap_map]
    apply List.flatMap_congr
    intro y _
    simp only [Function.comp_apply]
    split
    · rfl
    · rfl
  · have h' : ownedByTurn st.turn (getCell st.board s.1 s.2) = false := by
      simpa using h
    rw [if_neg (by simp [h']), List.filter_eq_nil_iff]
    intro m hm
    obtain ⟨e, _, rfl⟩ := List.mem_map.mp hm
    simp [reject_unowned st s e h']

/-- C9: `get_all_valid_moves` returns exactly the (start, end)
pairs accepted by `validate_move`, enumerated row-major over start
squares and, per start square, row-major over end squares. -/
theorem c9_move_generation_order (st : GameState) :
    get_all_valid_moves st
      = allMovePairs.filter (fun m => (validate_move st m).1) := by
  unfold allMovePairs
  rw [List.filter_flatMap]
  unfold squaresRowMajor get_all_valid_moves
  rw [List.flatMap_assoc]
  apply List.flatMap_congr
  intro i _
  rw [List.flatMap_map]
  apply List.flatMap_congr
  intro j _
  exact (per_start_square st ((i : Int), (j : Int))).symm

/-- When the side to move has no valid moves, every `minimax` call
returns a `None` move (at depth ≥ 1 and game not over it returns the
loop's initial `(None, ±inf)`, not the static evaluation). -/
theorem minimax_none_of_no_moves (heuristic : String) (useAB : Bool) (d : Nat)
    (st : GameState) (maximizing : Bool) (alpha beta : Score)
    (hm : get_all_valid_moves st = []) :
    (minimax heuristic useAB d st maximizing alpha beta).1 = none := by
  cases d with
  | zero => rfl
  | succ d =>
    simp only [minimax, hm]
    split
    · rfl
    · split
      · rfl
      · rfl

/-- The iterative-deepening loop never replaces its accumulator when
every depth returns a `None` move. -/
theorem ai_loop_keeps_best_of_no_moves (heuristic : String) (useAB : Bool)
    (st : GameState) (maximizing : Bool) (ds : List Nat)
    (best : Option Move × Option Score)
    (hm : get_all_valid_moves st = []) :
    ai_loop heuristic useAB st maximizing ds best = best := by
  induction ds with
  | nil => rfl
  | cons d rest ih =>
    simp only [ai_loop, minimax_none_of_no_moves heuristic useAB d st maximizing
      ⊥ ⊤ hm]
    exact ih

/-- C7 (corrected): if the side to move has no valid moves, the AI
move function returns a null move together with a **null score**
(Python `None`) — not the static evaluation of the state.  At depth ≥ 1
the root `minimax` falls through its empty move loop to
`(None, ±inf)`, `ai_move` only records a score when the move is
non-null, so both components stay `None`. -/
theorem c7_no_moves_returns_null (heuristic : String) (useAB : Bool)
    (st : GameState) (hm : get_all_valid_moves st = []) :
    ai_move heuristic useAB st = (none, none) :=
  ai_loop_keeps_best_of_no_moves heuristic useAB st (st.turn = .white)
    [1, 2, 3, 4, 5] (none, none) hm

/-- Counterexample to **C7** as stated: in `noMoveState` white has no
valid moves and the game is not over; the claim asserts the AI returns
the evaluator's score of the state (which is 9), but `ai_move` returns
a null score. -/
theorem c7_counterexample :
    get_all_valid_moves noMoveState = [] ∧
    is_game_over noMoveState = false ∧
    ai_move "e0" false noMoveState = (none, none) ∧
    evaluate_board "e0" noMoveState = 9 ∧
    (ai_move "e0" false noMoveState).2
      ≠ some (intScore (evaluate_board "e0" noMoveState)) := by
  refine ⟨by decide, by decide, by decide, by decide, by decide⟩

/-- Witness for `c7_no_moves_returns_null`. -/
theorem c7_witness :
    get_all_valid_moves noMoveState = [] ∧
    ai_move "e1" true noMoveState = (none, none) :=
  ⟨by decide, c7_no_moves_returns_null "e1" true noMoveState (by decide)⟩

/-- C8 (corrected, provable part): a depth whose **root** poll sees
an expired budget returns a null move and the static evaluation, and
the iterative-deepening loop keeps the previous completed result for
any depth whose root call returns a null move.  (A depth that times out
*below* its root instead returns a usable partial move that replaces
the previous result — see `c8_counterexample`.) -/
theorem c8_root_abort_keeps_previous (heuristic : String) (useAB : Bool)
    (limit : Nat) :
    (∀ (d : Nat) (st : GameState) (maximizing : Bool) (alpha beta : Score)
        (c : Nat), limit < c →
      minimaxT heuristic useAB limit d st maximizing alpha beta c
        = ((none, intScore (evaluate_board heuristic st)), c + 1)) ∧
    (∀ (st : GameState) (maximizing : Bool) (d : Nat) (rest : List Nat)
        (best : Option Move × Option Score) (c : Nat), ¬ limit < c →
      (minimaxT heuristic useAB limit d st maximizing ⊥ ⊤ (c + 1)).1.1 = none →
      ai_loopT heuristic useAB limit st maximizing (d :: rest) best c
        = ai_loopT heuristic useAB limit st maximizing rest best
            (minimaxT heuristic useAB limit d st maximizing ⊥ ⊤ (c + 1)).2) := by
  constructor
  · intro d st maximizing alpha beta c hc
    cases d with
    | zero => simp [minimaxT, hc]
    | succ d => simp [minimaxT, hc]
  · intro st maximizing d rest best c hc hnone
    simp only [ai_loopT, if_neg hc, hnone]

/-- Counterexample to **C8** as stated: in `deepState` with budget 27,
depth 1 completes in full (its timed run equals the untimed run and
returns (A, 7) with A = (2,2)→(1,1)); depth 2 starts in time but the
budget expires during its traversal — its partial result
(B, 7) with B = (3,3)→(3,4) differs from the untimed depth-2 result
(A, 6) — and the engine returns exactly this partial (B, 7), which is
**not** the deepest fully completed depth's result (A, 7): the aborted
depth's partial result replaced it. -/
theorem c8_counterexample :
    (minimaxT "e0" false 27 1 deepState true ⊥ ⊤ 1).1
      = minimax "e0" false 1 deepState true ⊥ ⊤ ∧
    minimax "e0" false 1 deepState true ⊥ ⊤
      = (some ((2, 2), (1, 1)), intScore 7) ∧
    minimax "e0" false 2 deepState true ⊥ ⊤
      = (some ((2, 2), (1, 1)), intScore 6) ∧
    (minimaxT "e0" false 27 2 deepState true ⊥ ⊤ 16).1
      = (some ((3, 3), (3, 4)), intScore 7) ∧
    (minimaxT "e0" false 27 2 deepState true ⊥ ⊤ 16).1
      ≠ minimax "e0" false 2 deepState true ⊥ ⊤ ∧
    (ai_moveT "e0" false 27 deepState).1
      = (some ((3, 3), (3, 4)), some (intScore 7)) ∧
    (ai_moveT "e0" false 27 deepState).1
      ≠ (some ((2, 2), (1, 1)), some (intScore 7)) := by
  refine ⟨by decide, by decide, by decide, by decide, by decide, by decide, by decide⟩

/-- Witness for `c8_root_abort_keeps_previous`: with budget 3, a depth-2
root call polled at clock 4 returns a null move and the evaluation of
`deepState`, and the loop at clock 3 keeps its previous best across
that depth. -/
theorem c8_witness :
    27 < 28 ∧ ¬ (3 : Nat) < 3 ∧
    minimaxT "e0" false 27 2 deepState true ⊥ ⊤ 28
      = ((none, intScore (evaluate_board "e0" deepState)), 29) ∧
    ai_loopT "e0" false 3 deepState true (2 :: [3]) (some ((2, 2), (1, 1)),
        some (intScore 7)) 3
      = ai_loopT "e0" false 3 deepState true [3] (some ((2, 2), (1, 1)),
          some (intScore 7))
          (minimaxT "e0" false 3 2 deepState true ⊥ ⊤ 4).2 := by
  refine ⟨by decide, by decide, ?_, ?_⟩
  · exact (c8_root_abort_keeps_previous "e0" false 27).1 2 deepState true ⊥ ⊤ 28
      (by decide)
  · exact (c8_root_abort_keeps_previous "e0" false 3).2 deepState true 2 [3] _ 3
      (by decide)
      (by rw [(c8_root_abort_keeps_previous "e0" false 3).1 2 deepState true ⊥ ⊤ 4
        (by decide)])

/-!
## Alpha-beta equivalence (C2)

The development follows the classical fail-soft alpha-beta argument:
with window `(α, β)` the pruned search returns a value `r` with
`r ≤ α → v ≤ r`, `α < r < β → r = v` and `β ≤ r → r ≤ v`, where `v` is
the plain minimax value; at the root window `(⊥, ⊤)` this forces both
the value and the first-encountered best move to coincide.
-/

/-- The source's `if score > value: value = score` update is `max`. -/
theorem if_lt_max (a s : Score) : (if a < s then s else a) = max a s := by
  rcases le_or_lt s a with h | h
  · rw [if_neg (not_lt_of_le h), max_eq_left h]
  · rw [if_pos h, max_eq_right h.le]

/-- Dual of `if_lt_max` for the minimizing loop. -/
theorem if_lt_min (a s : Score) : (if s < a then s else a) = min a s := by
  rcases le_or_lt a s with h | h
  · rw [if_neg (not_lt_of_le h), min_eq_left h]
  · rw [if_pos h, min_eq_right h.le]

/-- Without pruning, `maxLoop` only consumes the score component of the
recursion, so two recursions agreeing on scores (for any windows) give
identical loops. -/
theorem maxLoop_false_congr (r r' : GameState → Score → Score → Option Move × Score)
    (st : GameState)
    (hr : ∀ x a b a' b', (r x a b).2 = (r' x a' b').2) :
    ∀ (l : List Move) (best : Option Move) (v α β α' β' : Score),
      maxLoop false r st l best v α β = maxLoop false r' st l best v α' β' := by
  intro l
  induction l with
  | nil => intro best v α β α' β'; rfl
  | cons mv rest ih =>
    intro best v α β α' β'
    simp only [maxLoop, Bool.false_eq_true, if_false, hr _ α β α' β']
    exact ih _ _ _ _ _ _

/-- Dual of `maxLoop_false_congr`. -/
theorem minLoop_false_congr (r r' : GameState → Score → Score → Option Move × Score)
    (st : GameState)
    (hr : ∀ x a b a' b', (r x a b).2 = (r' x a' b').2) :
    ∀ (l : List Move) (best : Option Move) (v α β α' β' : Score),
      minLoop false r st l best v α β = minLoop false r' st l best v α' β' := by
  intro l
  induction l with
  | nil => intro best v α β α' β'; rfl
  | cons mv rest ih =>
    intro best v α β α' β'
    simp only [minLoop, Bool.false_eq_true, if_false, hr _ α β α' β']
    exact ih _ _ _ _ _ _

/-- Plain minimax ignores the `(alpha, beta)` window it threads. -/
theorem minimax_false_window (heuristic : String) :
    ∀ (d : Nat) (st : GameState) (maximizing : Bool) (α β α' β' : Score),
      minimax heuristic false d st maximizing α β
        = minimax heuristic false d st maximizing α' β' := by
  intro d
  induction d with
  | zero => intro st maximizing α β α' β'; rfl
  | succ d ih =>
    intro st maximizing α β α' β'
    simp only [minimax]
    split
    · rfl
    · split
      · exact maxLoop_false_congr _ _ st
          (fun x a b a' b' => by rw [ih x false a b a' b']) _ _ _ _ _ _ _
      · exact minLoop_false_congr _ _ st
          (fun x a b a' b' => by rw [ih x true a b a' b']) _ _ _ _ _ _ _

/-- A plain maximizing loop whose accumulator reached `⊤` never changes
its `(best, value)` again. -/
theorem maxLoop_false_top (r : GameState → Score → Score → Option Move × Score)
    (st : GameState) :
    ∀ (l : List Move) (best : Option Move) (α β : Score),
      maxLoop false r st l best ⊤ α β = (best, ⊤) := by
  intro l
  induction l with
  | nil => intro best α β; rfl
  | cons mv rest ih =>
    intro best α β
    simp only [maxLoop, Bool.false_eq_true, if_false, if_neg (not_top_lt)]
    exact ih _ _ _

/-- Dual of `maxLoop_false_top`. -/
theorem minLoop_false_bot (r : GameState → Score → Score → Option Move × Score)
    (st : GameState) :
    ∀ (l : List Move) (best : Option Move) (α β : Score),
      minLoop false r st l best ⊥ α β = (best, ⊥) := by
  intro l
  induction l with
  | nil => intro best α β; rfl
  | cons mv rest ih =>
    intro best α β
    simp only [minLoop, Bool.false_eq_true, if_false, if_neg (not_lt_bot)]
    exact ih _ _ _

/-- The plain maximizing loop's value only grows. -/
theorem maxLoop_false_le (r : GameState → Score → Score → Option Move × Score)
    (st : GameState) :
    ∀ (l : List Move) (best : Option Move) (v α β : Score),
      v ≤ (maxLoop false r st l best v α β).2 := by
  intro l
  induction l with
  | nil => intro best v α β; exact le_refl v
  | cons mv rest ih =>
    intro best v α β
    simp only [maxLoop, Bool.false_eq_true, if_false, if_lt_max]
    exact le_trans (le_max_left _ _) (ih _ _ _ _)

/-- The plain minimizing loop's value only shrinks. -/
theorem minLoop_false_ge (r : GameState → Score → Score → Option Move × Score)
    (st : GameState) :
    ∀ (l : List Move) (best : Option Move) (v α β : Score),
      (minLoop false r st l best v α β).2 ≤ v := by
  intro l
  induction l with
  | nil => intro best v α β; exact le_refl v
  | cons mv rest ih =>
    intro best v α β
    simp only [minLoop, Bool.false_eq_true, if_false, if_lt_min]
    exact le_trans (ih _ _ _ _) (min_le_left _ _)

/-- Fail-soft window soundness for one maximizing node's move loop.
`rAB` is the pruned recursion used for the children (all called with
the node's `β`), `v0` the plain child value; `a` and `p` are the pruned
and plain accumulator values, tied by the stated invariant; the loop's
current alpha is `max α₀ a` for the node's incoming alpha `α₀`. -/
theorem maxLoop_km
    (rAB : GameState → Score → Score → Option Move × Score)
    (v0 : GameState → Score) (st : GameState) (α₀ β : Score)
    (Hc : ∀ st' a, a < β →
      ((rAB st' a β).2 ≤ a → v0 st' ≤ (rAB st' a β).2) ∧
      (a < (rAB st' a β).2 → (rAB st' a β).2 < β → (rAB st' a β).2 = v0 st') ∧
      (β ≤ (rAB st' a β).2 → (rAB st' a β).2 ≤ v0 st')) :
    ∀ (l : List Move) (a p : Score) (best best' : Option Move),
      (a ≤ α₀ → p ≤ a) → (α₀ < a → a = p) → max α₀ a < β →
      (((maxLoop true rAB st l best a (max α₀ a) β).2 ≤ α₀ →
          (maxLoop false (fun x _ _ => (none, v0 x)) st l best' p ⊥ ⊤).2
            ≤ (maxLoop true rAB st l best a (max α₀ a) β).2) ∧
       (α₀ < (maxLoop true rAB st l best a (max α₀ a) β).2 →
          (maxLoop true rAB st l best a (max α₀ a) β).2 < β →
          (maxLoop true rAB st l best a (max α₀ a) β).2
            = (maxLoop false (fun x _ _ => (none, v0 x)) st l best' p ⊥ ⊤).2) ∧
       (β ≤ (maxLoop true rAB st l best a (max α₀ a) β).2 →
          (maxLoop true rAB st l best a (max α₀ a) β).2
            ≤ (maxLoop false (fun x _ _ => (none, v0 x)) st l best' p ⊥ ⊤).2)) := by
  intro l
  induction l with
  | nil =>
    intro a p best best' h1 h2 h3
    have ha : a < β := lt_of_le_of_lt (le_max_right α₀ a) h3
    simp only [maxLoop]
    exact ⟨h1, fun hp _ => h2 hp, fun hb => absurd ha (not_lt_of_le hb)⟩
  | cons mv rest ih =>
    intro a p best best' h1 h2 h3
    have hs := Hc (makeMoveState st mv) (max α₀ a) h3
    simp only [maxLoop, if_true, if_lt_max]
    set s := (rAB (makeMoveState st mv) (max α₀ a) β).2 with hsdef
    set v := v0 (makeMoveState st mv) with hvdef
    have halpha : max (max α₀ a) (max a s) = max α₀ (max a s) := by
      rw [max_assoc α₀ a (max a s), ← max_assoc a a s, max_self]
    rw [halpha]
    by_cases hbr : β ≤ max α₀ (max a s)
    · rw [if_pos hbr]
      have ha : a < β := lt_of_le_of_lt (le_max_right α₀ a) h3
      have hα : α₀ < β := lt_of_le_of_lt (le_max_left α₀ a) h3
      have hms : β ≤ max a s := by
        rcases max_cases α₀ (max a s) with ⟨he, _⟩ | ⟨he, _⟩
        · rw [he] at hbr; exact absurd (lt_of_le_of_lt hbr hα) (lt_irrefl β)
        · rw [he] at hbr; exact hbr
      have has : a ≤ s := by
        by_contra hcon
        rw [max_eq_left (le_of_not_le hcon)] at hms
        exact absurd (lt_of_le_of_lt hms ha) (lt_irrefl β)
      have hmaxs : max a s = s := max_eq_right has
      rw [hmaxs] at hms ⊢
      have hsv : s ≤ v := hs.2.2 hms
      have htp : max p v ≤ (maxLoop false (fun x _ _ => (none, v0 x)) st rest
          (if p < v then some mv else best') (max p v) ⊥ ⊤).2 :=
        maxLoop_false_le _ st rest _ _ _ _
      refine ⟨?_, ?_, ?_⟩
      · intro hra
        exact absurd (lt_of_lt_of_le hα (le_trans hms hra)) (lt_irrefl α₀)
      · intro _ hrb
        exact absurd (lt_of_le_of_lt hms hrb) (lt_irrefl β)
      · intro _
        exact le_trans hsv (le_trans (le_max_right p v) htp)
    · rw [if_neg hbr]
      have h3' : max α₀ (max a s) < β := lt_of_not_le hbr
      have hparts : (max a s ≤ α₀ → max p v ≤ max a s) ∧
          (α₀ < max a s → max a s = max p v) := by
        by_cases hsa : s ≤ max α₀ a
        · have hv : v ≤ s := hs.1 hsa
          constructor
          · intro hle
            have hale : a ≤ α₀ := le_trans (le_max_left a s) hle
            have hsle : s ≤ α₀ := le_trans (le_max_right a s) hle
            exact max_le (le_trans (h1 hale) (le_max_left a s))
              (le_trans hv (le_max_right a s))
          · intro hgt
            by_cases haa : α₀ < a
            · have hpa := h2 haa
              have hsa2 : s ≤ a := by
                rw [max_eq_right haa.le] at hsa; exact hsa
              rw [max_eq_left hsa2, ← hpa, max_eq_left (le_trans hv hsa2)]
            · have hale : a ≤ α₀ := le_of_not_lt haa
              have hsle : s ≤ α₀ := by
                rw [max_eq_left hale] at hsa; exact hsa
              exact absurd hgt (not_lt_of_le (max_le hale hsle))
        · have hsa' : max α₀ a < s := lt_of_not_le hsa
          by_cases hsb : s < β
          · have hveq : s = v := hs.2.1 hsa' hsb
            have hals : a < s := lt_of_le_of_lt (le_max_right α₀ a) hsa'
            have haseq : max a s = s := max_eq_right hals.le
            constructor
            · intro hle
              rw [haseq] at hle
              exact absurd (lt_of_le_of_lt (le_max_left α₀ a) hsa')
                (not_lt_of_le hle)
            · intro _
              have hps : p ≤ s := by
                by_cases haa : α₀ < a
                · rw [← h2 haa]; exact hals.le
                · exact le_trans (h1 (le_of_not_lt haa))
                    (le_of_lt hals)
              rw [haseq, ← hveq, max_eq_right hps]
          · have hbs : β ≤ s := le_of_not_lt hsb
            exact absurd (le_trans hbs (le_trans (le_max_right a s)
              (le_max_right α₀ (max a s)))) hbr
      exact ih (max a s) (max p v) _ _ hparts.1 hparts.2 h3'

/-- Dual of `maxLoop_km` for one minimizing node's move loop: the
node's incoming beta is `β₀`, the loop's current beta `min β₀ a`, and
the children are searched with the node's fixed alpha `α`. -/
theorem minLoop_km
    (rAB : GameState → Score → Score → Option Move × Score)
    (v0 : GameState → Score) (st : GameState) (α β₀ : Score)
    (Hc : ∀ st' b, α < b →
      ((rAB st' α b).2 ≤ α → v0 st' ≤ (rAB st' α b).2) ∧
      (α < (rAB st' α b).2 → (rAB st' α b).2 < b → (rAB st' α b).2 = v0 st') ∧
      (b ≤ (rAB st' α b).2 → (rAB st' α b).2 ≤ v0 st')) :
    ∀ (l : List Move) (a p : Score) (best best' : Option Move),
      (β₀ ≤ a → a ≤ p) → (a < β₀ → a = p) → α < min β₀ a →
      (((minLoop true rAB st l best a α (min β₀ a)).2 ≤ α →
          (minLoop false (fun x _ _ => (none, v0 x)) st l best' p ⊥ ⊤).2
            ≤ (minLoop true rAB st l best a α (min β₀ a)).2) ∧
       (α < (minLoop true rAB st l best a α (min β₀ a)).2 →
          (minLoop true rAB st l best a α (min β₀ a)).2 < β₀ →
          (minLoop true rAB st l best a α (min β₀ a)).2
            = (minLoop false (fun x _ _ => (none, v0 x)) st l best' p ⊥ ⊤).2) ∧
       (β₀ ≤ (minLoop true rAB st l best a α (min β₀ a)).2 →
          (minLoop true rAB st l best a α (min β₀ a)).2
            ≤ (minLoop false (fun x _ _ => (none, v0 x)) st l best' p ⊥ ⊤).2)) := by
  intro l
  induction l with
  | nil =>
    intro a p best best' h1 h2 h3
    have ha : α < a := lt_of_lt_of_le h3 (min_le_right β₀ a)
    simp only [minLoop]
    exact ⟨fun hra => absurd ha (not_lt_of_le hra), fun _ hp => h2 hp, h1⟩
  | cons mv rest ih =>
    intro a p best best' h1 h2 h3
    have hs := Hc (makeMoveState st mv) (min β₀ a) h3
    simp only [minLoop, if_true, if_lt_min]
    set s := (rAB (makeMoveState st mv) α (min β₀ a)).2 with hsdef
    set v := v0 (makeMoveState st mv) with hvdef
    have hbeta : min (min β₀ a) (min a s) = min β₀ (min a s) := by
      rw [min_assoc β₀ a (min a s), ← min_assoc a a s, min_self]
    rw [hbeta]
    by_cases hbr : min β₀ (min a s) ≤ α
    · rw [if_pos hbr]
      have ha : α < a := lt_of_lt_of_le h3 (min_le_right β₀ a)
      have hβ : α < β₀ := lt_of_lt_of_le h3 (min_le_left β₀ a)
      have hms : min a s ≤ α := by
        rcases min_cases β₀ (min a s) with ⟨he, _⟩ | ⟨he, _⟩
        · rw [he] at hbr; exact absurd (lt_of_lt_of_le hβ hbr) (lt_irrefl α)
        · rw [he] at hbr; exact hbr
      have has : s ≤ a := by
        by_contra hcon
        rw [min_eq_left (le_of_not_le hcon)] at hms
        exact absurd (lt_of_lt_of_le ha hms) (lt_irrefl α)
      have hmins : min a s = s := min_eq_right has
      rw [hmins] at hms ⊢
      have hsv : v ≤ s := hs.1 hms
      have htp : (minLoop false (fun x _ _ => (none, v0 x)) st rest
          (if v < p then some mv else best') (min p v) ⊥ ⊤).2 ≤ min p v :=
        minLoop_false_ge _ st rest _ _ _ _
      refine ⟨?_, ?_, ?_⟩
      · intro _
        exact le_trans (le_trans htp (min_le_right p v)) hsv
      · intro hra _
        exact absurd (lt_of_lt_of_le hra hms) (lt_irrefl α)
      · intro hrb
        exact absurd (lt_of_le_of_lt (le_trans hrb hms) hβ) (lt_irrefl β₀)
    · rw [if_neg hbr]
      have h3' : α < min β₀ (min a s) := lt_of_not_le hbr
      have hparts : (β₀ ≤ min a s → min a s ≤ min p v) ∧
          (min a s < β₀ → min a s = min p v) := by
        by_cases hsa : min β₀ a ≤ s
        · have hv : s ≤ v := hs.2.2 hsa
          constructor
          · intro hle
            have hale : β₀ ≤ a := le_trans hle (min_le_left a s)
            have hsle : β₀ ≤ s := le_trans hle (min_le_right a s)
            exact le_min (le_trans (min_le_left a s) (h1 hale))
              (le_trans (min_le_right a s) hv)
          · intro hlt
            by_cases haa : a < β₀
            · have hpa := h2 haa
              have hsa2 : a ≤ s := by
                rw [min_eq_right haa.le] at hsa; exact hsa
              rw [min_eq_left hsa2, ← hpa, min_eq_left (le_trans hsa2 hv)]
            · have hale : β₀ ≤ a := le_of_not_lt haa
              have hsle : β₀ ≤ s := by
                rw [min_eq_left hale] at hsa; exact hsa
              exact absurd hlt (not_lt_of_le (le_min hale hsle))
        · have hsa' : s < min β₀ a := lt_of_not_le hsa
          by_cases hsb : α < s
          · have hveq : s = v := hs.2.1 hsb hsa'
            have hals : s < a := lt_of_lt_of_le hsa' (min_le_right β₀ a)
            have hmineq : min a s = s := min_eq_right hals.le
            constructor
            · intro hle
              rw [hmineq] at hle
              exact absurd (lt_of_lt_of_le (lt_of_lt_of_le hsa'
                (min_le_left β₀ a)) hle) (lt_irrefl s)
            · intro _
              have hps : s ≤ p := by
                by_cases haa : a < β₀
                · rw [← h2 haa]; exact hals.le
                · exact le_trans hals.le (h1 (le_of_not_lt haa))
              rw [hmineq, ← hveq, min_eq_right hps]
          · have hbs : s ≤ α := le_of_not_lt hsb
            exact absurd (le_trans (le_trans (min_le_right β₀ (min a s))
              (min_le_right a s)) hbs) hbr
      exact ih (min a s) (min p v) _ _ hparts.1 hparts.2 h3'

/-- Fail-soft window soundness of the pruned `minimax` against the
plain one, at every depth and window. -/
theorem minimax_km (heuristic : String) :
    ∀ (d : Nat) (st : GameState) (maximizing : Bool) (α β : Score), α < β →
      (((minimax heuristic true d st maximizing α β).2 ≤ α →
          (minimax heuristic false d st maximizing ⊥ ⊤).2
            ≤ (minimax heuristic true d st maximizing α β).2) ∧
       (α < (minimax heuristic true d st maximizing α β).2 →
          (minimax heuristic true d st maximizing α β).2 < β →
          (minimax heuristic true d st maximizing α β).2
            = (minimax heuristic false d st maximizing ⊥ ⊤).2) ∧
       (β ≤ (minimax heuristic true d st maximizing α β).2 →
          (minimax heuristic true d st maximizing α β).2
            ≤ (minimax heuristic false d st maximizing ⊥ ⊤).2)) := by
  intro d
  induction d with
  | zero =>
    intro st maximizing α β hab
    exact ⟨fun _ => le_refl _, fun _ _ => rfl, fun _ => le_refl _⟩
  | succ d ih =>
    intro st maximizing α β hab
    simp only [minimax]
    split
    · exact ⟨fun _ => le_refl _, fun _ _ => rfl, fun _ => le_refl _⟩
    · have hplainmax : maxLoop false
          (fun st' a b => minimax heuristic false d st' false a b) st
          (get_all_valid_moves st) none ⊥ ⊥ ⊤
          = maxLoop false
              (fun x _ _ => (none, (minimax heuristic false d x false ⊥ ⊤).2)) st
              (get_all_valid_moves st) none ⊥ ⊥ ⊤ :=
        maxLoop_false_congr _ _ st
          (fun x a b a' b' => by rw [minimax_false_window heuristic d x false a b ⊥ ⊤])
          _ _ _ _ _ _ _
      have hplainmin : minLoop false
          (fun st' a b => minimax heuristic false d st' true a b) st
          (get_all_valid_moves st) none ⊤ ⊥ ⊤
          = minLoop false
              (fun x _ _ => (none, (minimax heuristic false d x true ⊥ ⊤).2)) st
              (get_all_valid_moves st) none ⊤ ⊥ ⊤ :=
        minLoop_false_congr _ _ st
          (fun x a b a' b' => by rw [minimax_false_window heuristic d x true a b ⊥ ⊤])
          _ _ _ _ _ _ _
      split
      · have hmb : max α (⊥ : Score) = α := max_eq_left bot_le
        have hkm := maxLoop_km
          (fun st' a b => minimax heuristic true d st' false a b)
          (fun x => (minimax heuristic false d x false ⊥ ⊤).2) st α β
          (fun st' a ha => ih st' false a β ha)
          (get_all_valid_moves st) ⊥ ⊥ none none
          (fun _ => le_refl _) (fun h => absurd h (not_lt_bot))
          (by rw [hmb]; exact hab)
        rw [hmb, ← hplainmax] at hkm
        exact hkm
      · have hmt : min β (⊤ : Score) = β := min_eq_left le_top
        have hkm := minLoop_km
          (fun st' a b => minimax heuristic true d st' true a b)
          (fun x => (minimax heuristic false d x true ⊥ ⊤).2) st α β
          (fun st' b hb => ih st' true α b hb)
          (get_all_valid_moves st) ⊤ ⊤ none none
          (fun _ => le_refl _) (fun h => absurd h (not_top_lt))
          (by rw [hmt]; exact hab)
        rw [hmt, ← hplainmin] at hkm
        exact hkm

/-- At the root window the pruned maximizing loop equals the plain one,
move for move: with `β = ⊤` a child can fail low (no update on either
side), return its exact value (same update on both sides) or return `⊤`
(both update; the pruned loop breaks but the plain loop can never
improve on `⊤`). -/
theorem maxLoop_root_eq
    (rAB : GameState → Score → Score → Option Move × Score)
    (v0 : GameState → Score) (st : GameState)
    (Hc : ∀ st' a, a < ⊤ →
      ((rAB st' a ⊤).2 ≤ a → v0 st' ≤ (rAB st' a ⊤).2) ∧
      (a < (rAB st' a ⊤).2 → (rAB st' a ⊤).2 < ⊤ → (rAB st' a ⊤).2 = v0 st') ∧
      ((⊤ : Score) ≤ (rAB st' a ⊤).2 → (rAB st' a ⊤).2 ≤ v0 st')) :
    ∀ (l : List Move) (best : Option Move) (a : Score), a < ⊤ →
      maxLoop true rAB st l best a a ⊤
        = maxLoop false (fun x _ _ => (none, v0 x)) st l best a ⊥ ⊤ := by
  intro l
  induction l with
  | nil => intro best a ha; rfl
  | cons mv rest ih =>
    intro best a ha
    have hs := Hc (makeMoveState st mv) a ha
    simp only [maxLoop, if_true, Bool.false_eq_true, if_false]
    dsimp only
    set s := (rAB (makeMoveState st mv) a ⊤).2 with hsdef
    set v := v0 (makeMoveState st mv) with hvdef
    rcases le_or_lt s a with hsa | has
    · have hva : v ≤ a := le_trans (hs.1 hsa) hsa
      rw [if_neg (not_lt_of_le hsa), if_neg (not_lt_of_le hsa),
        if_neg (not_lt_of_le hva), if_neg (not_lt_of_le hva),
        max_self, if_neg (not_le_of_lt ha)]
      exact ih best a ha
    · rcases lt_or_eq_of_le (le_top : s ≤ ⊤) with hst | hst
      · have hveq : s = v := hs.2.1 has hst
        rw [if_pos has, if_pos has, ← hveq, if_pos has, if_pos has,
          max_eq_right has.le, if_neg (not_le_of_lt hst)]
        exact ih (some mv) s hst
      · have hvt : v = ⊤ := top_unique (hst ▸ hs.2.2 hst.ge)
        have hat : a < v := by rw [hvt]; exact ha
        rw [if_pos has, if_pos has, if_pos hat, if_pos hat,
          max_eq_right has.le, hst, if_pos (le_refl (⊤ : Score)), hvt,
          maxLoop_false_top]

/-- Dual of `maxLoop_root_eq` for the minimizing loop at the root
window. -/
theorem minLoop_root_eq
    (rAB : GameState → Score → Score → Option Move × Score)
    (v0 : GameState → Score) (st : GameState)
    (Hc : ∀ st' b, (⊥ : Score) < b →
      ((rAB st' ⊥ b).2 ≤ ⊥ → v0 st' ≤ (rAB st' ⊥ b).2) ∧
      ((⊥ : Score) < (rAB st' ⊥ b).2 → (rAB st' ⊥ b).2 < b →
        (rAB st' ⊥ b).2 = v0 st') ∧
      (b ≤ (rAB st' ⊥ b).2 → (rAB st' ⊥ b).2 ≤ v0 st')) :
    ∀ (l : List Move) (best : Option Move) (a : Score), ⊥ < a →
      minLoop true rAB st l best a ⊥ a
        = minLoop false (fun x _ _ => (none, v0 x)) st l best a ⊥ ⊤ := by
  intro l
  induction l with
  | nil => intro best a ha; rfl
  | cons mv rest ih =>
    intro best a ha
    have hs := Hc (makeMoveState st mv) a ha
    simp only [minLoop, if_true, Bool.false_eq_true, if_false]
    dsimp only
    set s := (rAB (makeMoveState st mv) ⊥ a).2 with hsdef
    set v := v0 (makeMoveState st mv) with hvdef
    rcases le_or_lt a s with hsa | has
    · have hva : a ≤ v := le_trans hsa (hs.2.2 hsa)
      rw [if_neg (not_lt_of_le hsa), if_neg (not_lt_of_le hsa),
        if_neg (not_lt_of_le hva), if_neg (not_lt_of_le hva),
        min_self, if_neg (not_le_of_lt ha)]
      exact ih best a ha
    · rcases lt_or_eq_of_le (bot_le : (⊥ : Score) ≤ s) with hst | hst
      · have hveq : s = v := hs.2.1 hst has
        rw [if_pos has, if_pos has, ← hveq, if_pos has, if_pos has,
          min_eq_right has.le, if_neg (not_le_of_lt hst)]
        exact ih (some mv) s hst
      · have hvb : v = ⊥ := le_bot_iff.mp (hst.symm ▸ hs.1 hst.ge)
        have hat : v < a := by rw [hvb]; exact ha
        rw [if_pos has, if_pos has, if_pos hat, if_pos hat,
          min_eq_right has.le, ← hst, if_pos (le_refl (⊥ : Score)), hvb,
          minLoop_false_bot]

/-- At the root window `(⊥, ⊤)` the pruned and the plain `minimax`
coincide, both in score and in the returned (first-encountered) best
move, at every state and depth. -/
theorem minimax_ab_root_eq (heuristic : String) (d : Nat) (st : GameState)
    (maximizing : Bool) :
    minimax heuristic true d st maximizing ⊥ ⊤
      = minimax heuristic false d st maximizing ⊥ ⊤ := by
  cases d with
  | zero => rfl
  | succ d =>
    simp only [minimax]
    split
    · rfl
    · split
      · rw [maxLoop_root_eq
          (fun st' a b => minimax heuristic true d st' false a b)
          (fun x => (minimax heuristic false d x false ⊥ ⊤).2) st
          (fun st' a ha => minimax_km heuristic d st' false a ⊤ ha)
          (get_all_valid_moves st) none ⊥ bot_lt_top]
        exact (maxLoop_false_congr _ _ st
          (fun x a b a' b' => by
            rw [minimax_false_window heuristic d x false a b ⊥ ⊤])
          _ _ _ _ _ _ _).symm
      · rw [minLoop_root_eq
          (fun st' a b => minimax heuristic true d st' true a b)
          (fun x => (minimax heuristic false d x true ⊥ ⊤).2) st
          (fun st' b hb => minimax_km heuristic d st' true ⊥ b hb)
          (get_all_valid_moves st) none ⊤ bot_lt_top]
        exact (minLoop_false_congr _ _ st
          (fun x a b a' b' => by
            rw [minimax_false_window heuristic d x true a b ⊥ ⊤])
          _ _ _ _ _ _ _).symm

/-- Iterative deepening inherits the equivalence depth by depth. -/
theorem ai_loop_ab_eq (heuristic : String) (st : GameState) (maximizing : Bool) :
    ∀ (ds : List Nat) (best : Option Move × Option Score),
      ai_loop heuristic true st maximizing ds best
        = ai_loop heuristic false st maximizing ds best := by
  intro ds
  induction ds with
  | nil => intro best; rfl
  | cons d rest ih =>
    intro best
    simp only [ai_loop, minimax_ab_root_eq heuristic d st maximizing]
    exact ih _

/-- C2: at every state and fixed depth (no timeout firing, modelled
by the pure `minimax`), enabling alpha-beta pruning changes neither the
returned score nor the returned first-encountered best move, and hence
`ai_move` with pruning equals `ai_move` without. -/
theorem c2_alpha_beta_equivalence (heuristic : String) (st : GameState)
    (d : Nat) (maximizing : Bool) :
    minimax heuristic true d st maximizing ⊥ ⊤
      = minimax heuristic false d st maximizing ⊥ ⊤ ∧
    ai_move heuristic true st = ai_move heuristic false st :=
  ⟨minimax_ab_root_eq heuristic d st maximizing,
   ai_loop_ab_eq heuristic st (st.turn = .white) [1, 2, 3, 4, 5] (none, none)⟩

end MiniChess
